import Mathlib

/-!
Verification development for the RAG windowing / hybrid-retrieval core
(`windowing.py`, `rag_core.py`, `main.py`).

Conventions of the shallow embedding:
* Python lists become `List`, Python `None` becomes `Option.none`.
* Timestamps are modelled as integers (`ℤ`); a missing or unparsable
  `created_at` is `none` (the ISO-8601 parsing itself is abstracted away,
  only "known" vs "unknown" and the ordering of known timestamps matter).
* Python `int` slice indices are modelled as `ℤ` with Python's clamping
  slice semantics (`pySlice`).
* SQL float arithmetic from the retrieval queries is modelled over `ℝ`.
-/

namespace RagSpec

/-- Separator joined between turns inside a window (`windowing.SEP`). -/
def SEP : String := " ⟂ "

/-- Split a character list at every character satisfying `p`, keeping the
(possibly empty) chunks between separators. -/
def splitChars (p : Char → Bool) : List Char → List (List Char)
  | [] => [[]]
  | c :: cs =>
    if p c then [] :: splitChars p cs
    else match splitChars p cs with
      | [] => [[c]]
      | t :: ts => (c :: t) :: ts

/-- Drop leading and trailing characters satisfying `p` (Python
`str.strip`). -/
def stripChars (p : Char → Bool) (cs : List Char) : List Char :=
  ((cs.dropWhile p).reverse.dropWhile p).reverse

/-- Python `s.strip()`. -/
def pyStrip (s : String) : String := String.mk (stripChars Char.isWhitespace s.data)

/-- Python `" ".join(s.split())`: collapse whitespace runs and strip
(`windowing._normalize_text`). -/
def normalizeText (s : String) : String :=
  String.mk (List.intercalate [' ']
    ((splitChars Char.isWhitespace s.data).filter (fun t => t ≠ [])))

/-- A conversation turn (`models.Turn`); `created_at` is `none` when the
timestamp is missing or unparsable. -/
structure Turn where
  role : String
  content : String
  created_at : Option ℤ := none
deriving DecidableEq, Repr

/-- Python `sep.join(l)` (via the character lists, so that it reduces
definitionally). -/
def joinSep (sep : String) (l : List String) : String :=
  String.mk (List.intercalate sep.data (l.map String.data))

/-- Texts of the user/assistant turns, normalized, empties removed
(`windowing.extract_turn_texts`). -/
def extract_turn_texts (turns : List Turn) : List String :=
  turns.filterMap fun m =>
    if (m.role = "user" ∨ m.role = "assistant") ∧ m.content ≠ "" then
      (if normalizeText m.content ≠ "" then some (normalizeText m.content) else none)
    else none

/-- Per-turn timestamps, `none` when missing/unparsable, same length and
order as the input (`windowing.extract_turn_times`). -/
def extract_turn_times (turns : List Turn) : List (Option ℤ) :=
  turns.map (fun m => m.created_at)

/-- All overlapping windows `(start, end_inclusive, joined_text)` of lengths
`min_len..max_len` (`windowing.build_windows`).  The inclusive end index is
kept in `ℤ` exactly as Python computes `j - 1`. -/
def build_windows (texts : List String) (min_len max_len : ℕ) :
    List (ℤ × ℤ × String) :=
  (List.range texts.length).flatMap fun i =>
    (List.range' min_len (max_len + 1 - min_len)).filterMap fun L =>
      if i + L ≤ texts.length then
        some ((i : ℤ), (i : ℤ) + (L : ℤ) - 1, joinSep SEP ((texts.drop i).take L))
      else none

/-- The window-count formula of the spec:
`Σ_{L=minLen}^{maxLen} max(0, n − L + 1)` (the summand written with
truncated `ℕ` subtraction, which coincides with the `max`). -/
def windowCountFormula (n min_len max_len : ℕ) : ℕ :=
  ((List.range' min_len (max_len + 1 - min_len)).map (fun L => n + 1 - L)).sum

/-- Only the windows that end at the most recent turn
(`windowing.tail_windows_for_new_turn`); `i = max(0, n - L)` and the window
is kept when `j - i >= min_len`. -/
def tail_windows_for_new_turn (texts : List String) (min_len max_len : ℕ) :
    List (ℤ × ℤ × String) :=
  let n := texts.length
  if n = 0 then []
  else
    (List.range' min_len (max_len + 1 - min_len)).filterMap fun L =>
      let i := n - L
      if min_len ≤ n - i then
        some ((i : ℤ), (n : ℤ) - 1, joinSep SEP (texts.drop i))
      else none

/-- Clamp one Python slice bound to `[0, n]` (negative indices count from the
end, out-of-range indices are clipped). -/
def pyClampIndex (n : ℕ) (i : ℤ) : ℕ :=
  if i < 0 then (max ((n : ℤ) + i) 0).toNat else min i.toNat n

/-- Python list slice `l[s:e]` for arbitrary integer bounds. -/
def pySlice {α : Type} (l : List α) (s e : ℤ) : List α :=
  (l.take (pyClampIndex l.length e)).drop (pyClampIndex l.length s)

/-- Min/max of the non-null timestamps in `times[start_index:end_index+1]`,
`(none, none)` when there are none (`windowing.window_time_bounds`). -/
def window_time_bounds (times : List (Option ℤ)) (start_index end_index : ℤ) :
    Option ℤ × Option ℤ :=
  let slice_times := (pySlice times start_index (end_index + 1)).filterMap id
  if slice_times.isEmpty then (none, none)
  else (slice_times.min?, slice_times.max?)

/-! Intent classifier (`rag_core.py`).  The Python regexes are anchored and
made of literal alternatives, so each is embedded as a decidable string
predicate.  Case-insensitivity is modelled by lowercasing the input first
(the patterns themselves are ASCII apart from the verbatim mojibake
characters in `ACK_ONLY`, which have no ASCII case). -/

/-- A word character as used by the regex `\b` boundary (ASCII `\w`). -/
def isWordChar (c : Char) : Bool := c.isAlphanum || c = '_'

/-- Greeting words of `GREETING_ONLY`. -/
def greet_words : List String := ["hi", "hello", "hey", "hallo", "hola", "namaste"]

/-- Characters of the stripped, lowercased input (the form all the
case-insensitive anchored patterns are matched against). -/
def lowerStrip (text : String) : List Char :=
  (stripChars Char.isWhitespace text.data).map Char.toLower

/-- Regex `^(hi|hello|hey|hallo|hola|namaste)\b[!.]*$` (case-insensitive) on
the stripped text (`rag_core.is_greeting`): one greeting word followed only
by `!`/`.` characters. -/
def is_greeting (text : String) : Bool :=
  let s := lowerStrip text
  greet_words.any fun w =>
    w.data.isPrefixOf s && (s.drop w.data.length).all (fun c => c = '!' || c = '.')

/-- Literal single alternatives of `ACK_ONLY`. -/
def ackAtomList : List String := ["okay", "ok", "thanks", "thank", "thx", "ty", "."]

/-- The four `ACK_ONLY` alternatives that end in a `+`-repeated character
(the source file stores them as verbatim mojibake): a literal stem followed
by one or more copies of a final character. -/
def ackMojis : List (String × Char) :=
  [("ðŸ", '‘'), ("ðŸ‘", 'Ž'),
   ("ðŸ‘", 'Œ'), ("ðŸ", '™')]

/-- Does `cs` decompose into a (possibly empty) sequence of `ACK_ONLY`
alternatives?  `fuel` bounds the recursion; every alternative consumes at
least one character, so `fuel = cs.length` is always enough. -/
def ackSeq : ℕ → List Char → Bool
  | _, [] => true
  | 0, _ :: _ => false
  | (fuel + 1), cs =>
      (ackAtomList.any fun a =>
        a.data.isPrefixOf cs && ackSeq fuel (cs.drop a.data.length)) ||
      ("thank".data.isPrefixOf cs &&
        (let r := cs.drop 5
         let w := (r.takeWhile Char.isWhitespace).length
         decide (1 ≤ w) && "you".data.isPrefixOf (r.drop w) &&
           ackSeq fuel (r.drop (w + 3)))) ||
      (ackMojis.any fun pc =>
        pc.1.data.isPrefixOf cs &&
        (let r := cs.drop pc.1.data.length
         let w := (r.takeWhile (fun c => c = pc.2)).length
         decide (1 ≤ w) && ackSeq fuel (r.drop w)))

/-- Regex `^(ok(ay)?|thanks?|thank\s+you|thx|ty|…|\.)+$` (case-insensitive)
on the stripped text (`rag_core.is_acknowledgment`): a non-empty
concatenation of acknowledgment alternatives. -/
def is_acknowledgment (text : String) : Bool :=
  let cs := lowerStrip text
  !cs.isEmpty && ackSeq cs.length cs

/-- Affirmative words of `YESNO_ONLY`. -/
def yes_words : List String := ["yes", "yeah", "yep", "yup", "correct", "right"]

/-- Negative words of `YESNO_ONLY`. -/
def no_words : List String := ["no", "nope"]

/-- `rag_core.is_yesno`: after stripping/lowercasing and removing outer
periods (Python `strip(".")`), a bare yes/no word yields `some "yes"` /
`some "no"`, else `none`. -/
def is_yesno (text : String) : Option String :=
  let t := stripChars (fun c => c = '.') (lowerStrip text)
  if yes_words.any (fun w => w.data = t) || no_words.any (fun w => w.data = t) then
    (if no_words.any (fun w => w.data = t) then some "no" else some "yes")
  else none

/-- Starting alternatives of `FACT_PATTERN` (`it'?s` contributes both
`it's` and `its`). -/
def fact_starts : List String := ["it's", "its", "my", "i'm", "i am", "i have", "i like"]

/-- Regex `^(it'?s|its|my|i(?:'m| am| have| like))\b.+` (case-insensitive)
on the stripped text (`rag_core.is_fact_statement`): a starting alternative,
a word boundary, and at least one following non-newline character. -/
def is_fact_statement (text : String) : Bool :=
  let s := lowerStrip text
  fact_starts.any fun a =>
    a.data.isPrefixOf s &&
    (match s.drop a.data.length with
     | [] => false
     | c :: _ => !isWordChar c && c ≠ '\n')

/-- Regex substitution `re.sub(r"^its\b", "it's", s, flags=re.I)` used by
`rag_core.confirm_fact`. -/
def normalizeLeadingIts (s : String) : String :=
  match s.data with
  | c1 :: c2 :: c3 :: rest =>
    if c1.toLower = 'i' && c2.toLower = 't' && c3.toLower = 's' &&
        rest.head?.all (fun c => !isWordChar c) then
      String.mk ('i' :: 't' :: '\'' :: 's' :: rest)
    else s
  | _ => s

/-- Python `s.rstrip(".! ")`. -/
def rstripPunct (s : String) : String :=
  String.mk ((s.data.reverse.dropWhile
    (fun c => c = '.' || c = '!' || c = ' ')).reverse)

/-- Short confirmation echo for fact statements (`rag_core.confirm_fact`):
strip, normalize a leading "its", drop trailing `.`/`!`/space, and wrap in
`Got it, ….`. -/
def confirm_fact (text : String) : String :=
  let s := rstripPunct (normalizeLeadingIts (pyStrip text))
  "Got it, " ++ s ++ "."

/-- Observable outcome of `rag_core.answer`: either a short-circuit reply or
the full retrieval + generation path (`ragReply`, carrying the mode). -/
inductive AnswerAction where
  | greetingReply : AnswerAction
  | ackReply : AnswerAction
  | yesReply : AnswerAction
  | noReply : AnswerAction
  | factReply : String → AnswerAction
  | ragReply : String → AnswerAction
deriving DecidableEq, Repr

/-- Dispatch structure of `rag_core.answer`: greeting, acknowledgment,
yes/no, fact statement, then the RAG flow.  `ragReply` is the only action
that invokes the embedding provider, the retriever and the chat model. -/
def answer (query : String) (mode : String) : AnswerAction :=
  let q := pyStrip query
  if is_greeting q then .greetingReply
  else if is_acknowledgment q then .ackReply
  else if is_yesno q = some "yes" then .yesReply
  else if is_yesno q = some "no" then .noReply
  else if is_fact_statement q then .factReply (confirm_fact q)
  else .ragReply mode

/-- Does an `AnswerAction` reach the embedding provider / retriever /
generative model?  Only the RAG fall-through does. -/
def callsProviders : AnswerAction → Bool
  | .ragReply _ => true
  | _ => false

/-! Hybrid retrieval scoring (`rag_core.retrieve_windows_hybrid`'s SQL).
A merged candidate (CTE `merged`) carries a vector similarity, a keyword
rank and an age in days; a window coming from only one branch has `0` for
the other signal.  The `scaled`/`scored` CTEs are embedded over `ℝ`. -/

/-- One row of the `merged` candidate set. -/
structure Cand where
  window_id : ℕ
  vec_sim : ℝ
  fts_rank : ℝ
  age_days : ℝ

/-- Maximum of a list of reals (SQL `MAX(…) OVER ()` on a non-empty
candidate set; the `[]` case is arbitrary as SQL produces no row then). -/
noncomputable def listMax : List ℝ → ℝ
  | [] => 0
  | x :: xs => xs.foldl max x

/-- `MAX(vec_sim) OVER ()` of the merged candidate set. -/
noncomputable def vmax (cs : List Cand) : ℝ := listMax (cs.map Cand.vec_sim)

/-- `MAX(fts_rank) OVER ()` of the merged candidate set. -/
noncomputable def kmax (cs : List Cand) : ℝ := listMax (cs.map Cand.fts_rank)

/-- The `CASE WHEN max > 0 THEN raw / max ELSE 0 END` normalization of the
`scaled` CTE. -/
noncomputable def sqlNormScore (raw m : ℝ) : ℝ := if m > 0 then raw / m else 0

/-- `EXP(-GREATEST(age_days, 0) / decay_days)`. -/
noncomputable def decayFactor (age_days decay_days : ℝ) : ℝ :=
  Real.exp (-(max age_days 0) / decay_days)

/-- The fused `hybrid_score` of the `scored` CTE for candidate `c` within
the merged set `cs`. -/
noncomputable def hybrid_score (cs : List Cand) (c : Cand)
    (vec_weight fts_weight decay_days : ℝ) : ℝ :=
  vec_weight * (sqlNormScore c.vec_sim (vmax cs) * decayFactor c.age_days decay_days) +
  fts_weight * sqlNormScore c.fts_rank (kmax cs)

/-- Normalization exactly as the claim words it: raw score divided by the
maximum, and zero for every candidate when that maximum is zero. -/
noncomputable def claimNormScore (raw m : ℝ) : ℝ := if m = 0 then 0 else raw / m

/-- Fused score exactly as the claim words it, for comparison with
`hybrid_score`. -/
noncomputable def claimFusedScore (cs : List Cand) (c : Cand)
    (vec_weight fts_weight decay_days : ℝ) : ℝ :=
  vec_weight * (claimNormScore c.vec_sim (vmax cs) * decayFactor c.age_days decay_days) +
  fts_weight * claimNormScore c.fts_rank (kmax cs)

/-- Decayed vector contribution `sim * EXP(-GREATEST(age,0)/decay)`
(the vector term of both `retrieve_windows_vector` and the hybrid score). -/
noncomputable def decayedVecContribution (sim decay_days age_days : ℝ) : ℝ :=
  sim * decayFactor age_days decay_days

/-- A merged candidate set of two vector-only candidates whose normalized
scores are 0.8 and 1, both with age 0 (decay factor 1). -/
def c1cands : List Cand := [⟨1, 0.8, 0, 0⟩, ⟨2, 1, 0, 0⟩]

/-- The candidate of `c1cands` with normalized vector score 0.8. -/
def c1candA : Cand := ⟨1, 0.8, 0, 0⟩

/-- A lone vector-only candidate with negative cosine similarity (cosine
distance 2), making the candidate-set maximum negative. -/
def c1negCand : Cand := ⟨1, -1, 0, 0⟩

/-! Window persistence (`main.py`). -/

/-- A `conv_windows` row as assembled by `main._insert_window_row`
(timestamps as in `Turn`; the SHA-256 `text_hash` is kept as an opaque
string field — its value plays no role in the insertion semantics). -/
structure WindowRow where
  user_id : String
  conversation_id : String
  start_index : ℤ
  end_index : ℤ
  turn_count : ℤ
  text : String
  test_group : ℤ
  first_turn_at : Option ℤ
  last_turn_at : Option ℤ
  text_hash : String
deriving DecidableEq, Repr

/-- The conflict key `(user_id, conversation_id, start_index, end_index)`. -/
def rowKey (r : WindowRow) : String × String × ℤ × ℤ :=
  (r.user_id, r.conversation_id, r.start_index, r.end_index)

/-- `INSERT … ON CONFLICT (user_id, conversation_id, start_index,
end_index) DO NOTHING` against a store of rows
(`main._insert_window_row`). -/
def insert_window_row (store : List WindowRow) (r : WindowRow) : List WindowRow :=
  if store.any (fun x => decide (rowKey x = rowKey r)) then store
  else store ++ [r]

/-- Number of rows of the store carrying a given conflict key. -/
def countKey (store : List WindowRow) (k : String × String × ℤ × ℤ) : ℕ :=
  (store.filter (fun x => decide (rowKey x = k))).length

/-- A concrete window row (for witnesses). -/
def wrowA : WindowRow := ⟨"u1", "c1", 0, 1, 2, "A ⟂ B", 1, some 200, some 300, "h1"⟩

/-- A second concrete window row with a different conflict key. -/
def wrowB : WindowRow := ⟨"u1", "c1", 1, 2, 2, "B ⟂ C", 1, none, none, "h2"⟩

/-- Per-window data computed by the `/ingest` loop (`main.ingest`):
window bounds, joined text, and the `(first_turn_at, last_turn_at)` pair
obtained from `window_time_bounds` on `extract_turn_times`' output. -/
def ingestWindowRows (turns : List Turn) :
    List (ℤ × ℤ × String × (Option ℤ × Option ℤ)) :=
  let texts := extract_turn_texts turns
  let times := extract_turn_times turns
  (build_windows texts 2 4).map fun w =>
    (w.1, w.2.1, w.2.2, window_time_bounds times w.1 w.2.1)

/-- Timestamps of exactly those turns that survive `extract_turn_texts`'
filtering, in the same order — i.e. the timestamps of the turns that are
the windows' constituent turns. -/
def constituentTimes (turns : List Turn) : List (Option ℤ) :=
  turns.filterMap fun m =>
    if (m.role = "user" ∨ m.role = "assistant") ∧ m.content ≠ "" then
      (if normalizeText m.content ≠ "" then some m.created_at else none)
    else none

/-- Concrete ingest request exhibiting a filtered-out leading turn that
still carries a timestamp. -/
def c4turns : List Turn :=
  [⟨"system", "sys", some 100⟩, ⟨"user", "A", some 200⟩, ⟨"user", "B", some 300⟩]

/-! The `/ask` route (`main.ask`).  Each stage is modelled by its outcome
(`Except`): the embedding call, the retrieval call, the generative call and
the analytics insert attempted by `main._log_event`. -/

/-- The stage a failed `/ask` request reports. -/
inductive Stage where
  | embedding : Stage
  | retrieval : Stage
  | llm : Stage
deriving DecidableEq, Repr

/-- Outcome of `/ask`: an answer with its hits, or one error naming the
failed stage. -/
inductive AskResult (H A : Type) where
  | success : A → H → AskResult H A
  | failure : Stage → String → AskResult H A
deriving DecidableEq, Repr

/-- `main._log_event`: the analytics insert outcome is swallowed
unconditionally (`try/except: pass`). -/
def log_event (_outcome : Except String Unit) : Unit := ()

/-- Control flow of `main.ask`: embed, retrieve, generate, each converting
a stage failure into an HTTP error naming that stage; then log analytics
(outcome discarded) and return the answer with its hits. -/
def ask {V H A : Type} (embed : Except String V) (retrieve : V → Except String H)
    (generate : H → Except String A) (logOutcome : Except String Unit) :
    AskResult H A :=
  match embed with
  | .error e => .failure .embedding e
  | .ok v =>
    match retrieve v with
    | .error e => .failure .retrieval e
    | .ok hits =>
      match generate hits with
      | .error e => .failure .llm e
      | .ok ans =>
        let _ := log_event logOutcome
        .success ans hits

/-! Theorems. -/

/-- Helper: the SQL normalization agrees with the claim's wording whenever
the signal maximum is nonnegative. -/
theorem sqlNormScore_eq_claim (raw m : ℝ) (hm : 0 ≤ m) :
    sqlNormScore raw m = claimNormScore raw m := by
  rcases eq_or_lt_of_le hm with h | h
  · rw [sqlNormScore, claimNormScore, if_neg (by rw [← h]; exact lt_irrefl 0),
      if_pos h.symm]
  · rw [sqlNormScore, claimNormScore, if_pos h, if_neg (ne_of_gt h)]

/-- Helper: the decay factor at age 0 is 1. -/
theorem decayFactor_zero (dd : ℝ) : decayFactor 0 dd = 1 := by
  rw [decayFactor]
  norm_num [Real.exp_zero]

/-- C1 counterexample: on the single-candidate set `[c1negCand]` — a
vector-only candidate with raw similarity −1, so that the vector maximum is
−1 — the claim's formula (raw/max, zero only when the max is zero) yields
fused score 0.7, while the code's `CASE WHEN max > 0` normalization yields
0. -/
theorem c1_hybrid_fusion_counterexample :
    hybrid_score [c1negCand] c1negCand 0.7 0.3 45 = 0
    ∧ claimFusedScore [c1negCand] c1negCand 0.7 0.3 45 = 0.7
    ∧ (0 : ℝ) ≠ 0.7 := by
  have hv : vmax [c1negCand] = -1 := by simp [vmax, listMax, c1negCand]
  have hk : kmax [c1negCand] = 0 := by simp [kmax, listMax, c1negCand]
  refine ⟨?_, ?_, by norm_num⟩
  · rw [hybrid_score, hv, hk]
    have h1 : sqlNormScore c1negCand.vec_sim (-1) = 0 := by
      rw [sqlNormScore, if_neg (by norm_num)]
    have h2 : sqlNormScore c1negCand.fts_rank 0 = 0 := by
      rw [sqlNormScore, if_neg (by norm_num)]
    rw [h1, h2]
    ring
  · rw [claimFusedScore, hv, hk]
    have h1 : claimNormScore c1negCand.vec_sim (-1) = 1 := by
      rw [claimNormScore, if_neg (by norm_num)]
      show c1negCand.vec_sim / (-1) = 1
      rw [show c1negCand.vec_sim = -1 from rfl]
      norm_num
    have h2 : claimNormScore c1negCand.fts_rank 0 = 0 := by
      rw [claimNormScore, if_pos rfl]
    have h3 : decayFactor c1negCand.age_days 45 = 1 := by
      rw [show c1negCand.age_days = 0 from rfl]
      exact decayFactor_zero 45
    rw [h1, h2, h3]
    ring

/-- C1 (amended: the per-signal normalization is raw/max when the maximum
is positive and zero when it is not — equivalently, the claim's formula
holds whenever both signal maxima are nonnegative): every candidate's fused
score is `vw * (normVec * exp(-max(age,0)/decayDays)) + fw * normKw`, and
on the concrete candidate set with normalized vector score 0.8, decay
factor 1 and weights 0.7/0.3 the fused score is 0.56. -/
theorem c1_hybrid_fusion_amended :
    (∀ (cs : List Cand) (c : Cand) (vw fw dd : ℝ),
      0 ≤ vmax cs → 0 ≤ kmax cs →
      hybrid_score cs c vw fw dd = claimFusedScore cs c vw fw dd)
    ∧ hybrid_score c1cands c1candA 0.7 0.3 45 = 0.56 := by
  constructor
  · intro cs c vw fw dd hv hk
    rw [hybrid_score, claimFusedScore, sqlNormScore_eq_claim _ _ hv,
      sqlNormScore_eq_claim _ _ hk]
  · have hv : vmax c1cands = 1 := by
      simp only [vmax, c1cands, listMax, List.map]
      rw [List.foldl_cons, List.foldl_nil]
      norm_num
    have hk : kmax c1cands = 0 := by
      simp only [kmax, c1cands, listMax, List.map]
      rw [List.foldl_cons, List.foldl_nil]
      norm_num
    rw [hybrid_score, hv, hk]
    have h1 : sqlNormScore c1candA.vec_sim 1 = 0.8 := by
      rw [sqlNormScore, if_pos (by norm_num), show c1candA.vec_sim = 0.8 from rfl]
      norm_num
    have h2 : sqlNormScore c1candA.fts_rank 0 = 0 := by
      rw [sqlNormScore, if_neg (by norm_num)]
    have h3 : decayFactor c1candA.age_days 45 = 1 := by
      rw [show c1candA.age_days = 0 from rfl]
      exact decayFactor_zero 45
    rw [h1, h2, h3]
    norm_num

/-- C1 witness: the amended fusion equation instantiated on the concrete
candidate set (whose signal maxima are nonnegative). -/
theorem c1_hybrid_fusion_amended_witness :
    0 ≤ vmax c1cands ∧ 0 ≤ kmax c1cands
    ∧ hybrid_score c1cands c1candA 0.7 0.3 45 =
        claimFusedScore c1cands c1candA 0.7 0.3 45 := by
  have hv : vmax c1cands = 1 := by
    simp only [vmax, c1cands, listMax, List.map]
    rw [List.foldl_cons, List.foldl_nil]
    norm_num
  have hk : kmax c1cands = 0 := by
    simp only [kmax, c1cands, listMax, List.map]
    rw [List.foldl_cons, List.foldl_nil]
    norm_num
  exact ⟨by rw [hv]; norm_num, by rw [hk],
    c1_hybrid_fusion_amended.1 c1cands c1candA 0.7 0.3 45 (by rw [hv]; norm_num)
      (by rw [hk])⟩

/-- C5 counterexample: at similarity 0 the decayed vector contribution is
constant (so not strictly decreasing in age), and at similarity −1 the
decayed value exceeds the undecayed value. -/
theorem c5_decay_counterexample :
    decayedVecContribution 0 45 1 = decayedVecContribution 0 45 2
    ∧ ¬ StrictAntiOn (fun age => decayedVecContribution 0 45 age) (Set.Ici 0)
    ∧ -1 < decayedVecContribution (-1) 45 45 := by
  have hzero : ∀ a : ℝ, decayedVecContribution 0 45 a = 0 := by
    intro a
    rw [decayedVecContribution, zero_mul]
  refine ⟨by rw [hzero, hzero], ?_, ?_⟩
  · intro h
    have h12 := h (Set.mem_Ici.mpr (by norm_num : (0:ℝ) ≤ 1))
      (Set.mem_Ici.mpr (by norm_num : (0:ℝ) ≤ 2)) (by norm_num)
    simp only [hzero] at h12
    exact lt_irrefl 0 h12
  · rw [decayedVecContribution, decayFactor]
    have hmax : max (45 : ℝ) 0 = 45 := by norm_num
    rw [hmax]
    have hexp : Real.exp (-(45 : ℝ) / 45) < 1 := by
      rw [show (-(45 : ℝ) / 45) = -1 by norm_num, ← Real.exp_zero]
      exact Real.exp_lt_exp.mpr (by norm_num)
    nlinarith [Real.exp_pos (-(45 : ℝ) / 45)]

/-- C5 (amended: strict decrease requires a positive similarity, and the
never-exceeds bound a nonnegative one): for `decayDays > 0` the decayed
contribution is strictly decreasing in age on `[0, ∞)` when `sim > 0`,
tends to 0 as age grows, and for `sim ≥ 0` is never negative and never
exceeds the undecayed value `sim`. -/
theorem c5_decay_monotonicity :
    ∀ sim dd : ℝ, 0 < dd →
      ((0 < sim →
        StrictAntiOn (fun age => decayedVecContribution sim dd age) (Set.Ici 0))
      ∧ Filter.Tendsto (fun age => decayedVecContribution sim dd age)
          Filter.atTop (nhds 0)
      ∧ (0 ≤ sim → ∀ age : ℝ,
          0 ≤ decayedVecContribution sim dd age
          ∧ decayedVecContribution sim dd age ≤ sim)) := by
  intro sim dd hdd
  refine ⟨?_, ?_, ?_⟩
  · intro hsim a ha b hb hab
    simp only [decayedVecContribution, decayFactor]
    rw [max_eq_left (Set.mem_Ici.mp ha), max_eq_left (Set.mem_Ici.mp hb)]
    refine mul_lt_mul_of_pos_left ?_ hsim
    refine Real.exp_lt_exp.mpr ?_
    have h := (div_lt_div_iff_of_pos_right hdd).mpr hab
    rw [neg_div, neg_div]
    exact neg_lt_neg h
  · have h1 : Filter.Tendsto (fun age : ℝ => -(age / dd))
        Filter.atTop Filter.atBot :=
      Filter.tendsto_neg_atTop_atBot.comp
        (Filter.Tendsto.atTop_div_const hdd Filter.tendsto_id)
    have h2 : Filter.Tendsto (fun age : ℝ => Real.exp (-(age / dd)))
        Filter.atTop (nhds 0) := Real.tendsto_exp_atBot.comp h1
    have h3 : Filter.Tendsto (fun age : ℝ => sim * Real.exp (-(age / dd)))
        Filter.atTop (nhds 0) := by
      simpa using Filter.Tendsto.const_mul sim h2
    refine Filter.Tendsto.congr' ?_ h3
    filter_upwards [Filter.eventually_ge_atTop (0 : ℝ)] with age hage
    simp only [decayedVecContribution, decayFactor]
    rw [max_eq_left hage, neg_div]
  · intro hsim age
    constructor
    · exact mul_nonneg hsim (Real.exp_pos _).le
    · refine mul_le_of_le_one_right hsim ?_
      refine Real.exp_le_one_iff.mpr ?_
      have h0 : (0 : ℝ) ≤ max age 0 := le_max_right age 0
      rw [neg_div]
      exact neg_nonpos.mpr (div_nonneg h0 hdd.le)

/-- C5 witness: the amended statement instantiated at similarity 1, decay
45 days, age 3. -/
theorem c5_decay_monotonicity_witness :
    (0 : ℝ) < 45 ∧ (0 : ℝ) < 1
    ∧ StrictAntiOn (fun age => decayedVecContribution 1 45 age) (Set.Ici 0)
    ∧ Filter.Tendsto (fun age => decayedVecContribution 1 45 age)
        Filter.atTop (nhds 0)
    ∧ (0 ≤ decayedVecContribution 1 45 3 ∧ decayedVecContribution 1 45 3 ≤ 1) :=
  ⟨by norm_num, by norm_num,
   (c5_decay_monotonicity 1 45 (by norm_num)).1 (by norm_num),
   (c5_decay_monotonicity 1 45 (by norm_num)).2.1,
   (c5_decay_monotonicity 1 45 (by norm_num)).2.2 (by norm_num) 3⟩

/-- C7: for every input, the fact-statement confirmation equals
`"Got it, "` + (trailing `.`/`!`/space stripped from the its-normalized
trimmed input) + `"."`; in particular `"my bag is green"` yields exactly
`"Got it, my bag is green."` (and a leading `Its` is normalized to
`it's`). -/
theorem c7_confirm_fact_shape :
    (∀ s : String,
      confirm_fact s = "Got it, " ++ rstripPunct (normalizeLeadingIts (pyStrip s)) ++ ".")
    ∧ confirm_fact "my bag is green" = "Got it, my bag is green."
    ∧ confirm_fact " Its my favorite!! " = "Got it, it's my favorite." :=
  ⟨fun _ => rfl, by decide, by decide⟩

/-- C4: at `c4turns` — a timestamped non-ingestible leading turn followed
by two user turns — the single ingested window is built from the two user
turns, but `main.ingest` stores `(100, 200)` (the timestamps at raw turn
indices 0 and 1) as its time bounds, while the earliest/latest timestamps
of the window's constituent turns are `(200, 300)`. -/
theorem c4_ingest_time_bounds_bug :
    ingestWindowRows c4turns = [(0, 1, "A ⟂ B", (some 100, some 200))]
    ∧ window_time_bounds (constituentTimes c4turns) 0 1 = (some 200, some 300)
    ∧ ((some 100 : Option ℤ), (some 200 : Option ℤ)) ≠ (some 200, some 300) :=
  ⟨by decide, by decide, by decide⟩

/-- C9: `/ask` fails as a whole with an error naming the failed stage when
embedding, retrieval or generation fails, succeeds only when all three
succeed, and its outcome never depends on the analytics-logging outcome. -/
theorem c9_ask_stage_errors :
    ∀ {V H A : Type} (embed : Except String V) (retrieve : V → Except String H)
      (generate : H → Except String A) (log1 log2 : Except String Unit),
      (∀ e, embed = .error e →
        ask embed retrieve generate log1 = .failure .embedding e)
      ∧ (∀ v e, embed = .ok v → retrieve v = .error e →
          ask embed retrieve generate log1 = .failure .retrieval e)
      ∧ (∀ v h e, embed = .ok v → retrieve v = .ok h → generate h = .error e →
          ask embed retrieve generate log1 = .failure .llm e)
      ∧ (∀ v h a, embed = .ok v → retrieve v = .ok h → generate h = .ok a →
          ask embed retrieve generate log1 = .success a h)
      ∧ ask embed retrieve generate log1 = ask embed retrieve generate log2 := by
  intro V H A embed retrieve generate log1 log2
  refine ⟨?_, ?_, ?_, ?_, ?_⟩
  · intro e he; simp [ask, he]
  · intro v e hv hr; simp [ask, hv, hr]
  · intro v h e hv hr hg; simp [ask, hv, hr, hg]
  · intro v h a hv hr hg; simp [ask, hv, hr, hg]
  · cases embed with
    | error e => rfl
    | ok v =>
      cases hr : retrieve v with
      | error e => simp [ask, hr]
      | ok h =>
        cases hg : generate h with
        | error e => simp [ask, hr, hg]
        | ok a => simp [ask, hr, hg]

/-- C9 witness: a failing embedding call at concrete inputs yields the
embedding-stage failure. -/
theorem c9_ask_stage_errors_witness :
    ask (Except.error "boom" : Except String ℕ)
      (fun _ => (Except.ok 1 : Except String ℕ))
      (fun _ => (Except.ok "ans" : Except String String))
      (Except.ok ()) = .failure .embedding "boom" :=
  (c9_ask_stage_errors (Except.error "boom") (fun _ => Except.ok 1)
    (fun _ => Except.ok "ans") (Except.ok ()) (Except.ok ())).1 "boom" rfl

/-- C10: `window_time_bounds` is total over arbitrary integer indices with
Python slice semantics: a slice containing no non-null timestamp yields
`(none, none)`, and an end index at or past the end of the list behaves
exactly like the clipped end index. -/
theorem c10_time_bounds_total :
    ∀ (times : List (Option ℤ)) (s e : ℤ),
      ((∀ t ∈ pySlice times s (e + 1), t = none) →
        window_time_bounds times s e = (none, none))
      ∧ ((times.length : ℤ) ≤ e →
          window_time_bounds times s e = window_time_bounds times s times.length) := by
  intro times s e
  constructor
  · intro h
    have hnil : (pySlice times s (e + 1)).filterMap id = [] :=
      List.filterMap_eq_nil_iff.mpr (fun t ht => h t ht)
    simp [window_time_bounds, hnil]
  · intro h
    have hclamp : pyClampIndex times.length (e + 1) =
        pyClampIndex times.length ((times.length : ℤ) + 1) := by
      unfold pyClampIndex
      split <;> split <;> omega
    unfold window_time_bounds pySlice
    rw [hclamp]

/-- C10 witness: concrete all-null and out-of-range instantiations. -/
theorem c10_time_bounds_total_witness :
    window_time_bounds [none] 0 0 = (none, none)
    ∧ window_time_bounds [some 5, none] 0 9 = window_time_bounds [some 5, none] 0 2 :=
  ⟨(c10_time_bounds_total [none] 0 0).1 (by decide),
   (c10_time_bounds_total [some 5, none] 0 9).2 (by decide)⟩

/-- Helper: a `filterMap` whose function is an if-then-some-else-none is a
`filter` followed by a `map`. -/
theorem filterMap_if_eq_map_filter {α β : Type} (p : α → Prop) [DecidablePred p]
    (f : α → β) (l : List α) :
    (l.filterMap fun a => if p a then some (f a) else none) =
    (l.filter (fun a => decide (p a))).map f := by
  induction l with
  | nil => rfl
  | cons a t ih =>
    by_cases h : p a <;> simp [List.filterMap_cons, List.filter_cons, h, ih]

/-- Helper: sum over `List.range` as a `Finset.range` sum. -/
theorem map_sum_list_range (f : ℕ → ℕ) (n : ℕ) :
    ((List.range n).map f).sum = ∑ i ∈ Finset.range n, f i := by
  induction n with
  | zero => simp
  | succ n ih =>
    rw [List.range_succ, Finset.sum_range_succ, List.map_append, List.sum_append, ih]
    simp

/-- Helper: sum over `List.range'` as a `Finset.range` sum. -/
theorem map_sum_list_range' (f : ℕ → ℕ) (s k : ℕ) :
    ((List.range' s k).map f).sum = ∑ j ∈ Finset.range k, f (s + j) := by
  rw [List.range'_eq_map_range, List.map_map, map_sum_list_range]
  rfl

/-- Helper: length of a filtered list as a sum of indicator values. -/
theorem filter_length_eq_sum {α : Type} (p : α → Bool) (l : List α) :
    (l.filter p).length = (l.map (fun a => if p a then 1 else 0)).sum := by
  induction l with
  | nil => rfl
  | cons a t ih => by_cases h : p a <;> simp [List.filter_cons, h, ih, Nat.add_comm]

/-- Helper: the number of admissible start indices for a window of length
`L ≥ 1` over `n` texts. -/
theorem range_count_window (n L : ℕ) (hL : 1 ≤ L) :
    (∑ i ∈ Finset.range n, if i + L ≤ n then 1 else 0) = n + 1 - L := by
  have hfil : Finset.filter (fun i => i + L ≤ n) (Finset.range n) =
      Finset.range (n + 1 - L) := by
    ext i
    simp only [Finset.mem_filter, Finset.mem_range]
    omega
  rw [Finset.sum_boole, hfil, Finset.card_range, Nat.cast_id]

/-- C2 counterexample: with one text and `minLen = maxLen = 0`,
`build_windows` emits 1 window but the claimed formula gives 2. -/
theorem c2_build_windows_counterexample :
    (build_windows ["A"] 0 0).length = 1
    ∧ windowCountFormula 1 0 0 = 2
    ∧ (1 : ℕ) ≠ 2 :=
  ⟨by decide, by decide, by decide⟩

/-- C2 (amended to window lengths ≥ 1, i.e. `1 ≤ minLen`): `build_windows`
returns exactly `Σ_{L=minLen}^{maxLen} max(0, n−L+1)` windows — one window
`[i, i+L−1]` for every start index `i` and length `L` in `[minLen, maxLen]`
that fits in bounds, each with `end − start + 1 = L` — with no two windows
sharing a `(start, end)` pair, and zero windows when `n = 0` or
`minLen > maxLen`. -/
theorem c2_build_windows_amended :
    ∀ (texts : List String) (mi ma : ℕ), 1 ≤ mi →
      ((build_windows texts mi ma).length = windowCountFormula texts.length mi ma
      ∧ (∀ w ∈ build_windows texts mi ma, ∃ i L : ℕ, mi ≤ L ∧ L ≤ ma ∧
          i + L ≤ texts.length ∧
          w = ((i : ℤ), (i : ℤ) + (L : ℤ) - 1, joinSep SEP ((texts.drop i).take L)) ∧
          w.2.1 - w.1 + 1 = (L : ℤ))
      ∧ (∀ i L : ℕ, mi ≤ L → L ≤ ma → i + L ≤ texts.length →
          ((i : ℤ), (i : ℤ) + (L : ℤ) - 1, joinSep SEP ((texts.drop i).take L))
            ∈ build_windows texts mi ma)
      ∧ ((build_windows texts mi ma).map (fun w => (w.1, w.2.1))).Nodup
      ∧ (texts.length = 0 → build_windows texts mi ma = [])
      ∧ (ma < mi → build_windows texts mi ma = [])) := by
  intro texts mi ma hmi
  refine ⟨?_, ?_, ?_, ?_, ?_, ?_⟩
  · -- length formula
    rw [build_windows, List.length_flatMap]
    have hcong : List.map
        (List.length ∘ fun i => (List.range' mi (ma + 1 - mi)).filterMap fun L =>
          if i + L ≤ texts.length then
            some ((i : ℤ), (i : ℤ) + (L : ℤ) - 1, joinSep SEP ((texts.drop i).take L))
          else none)
        (List.range texts.length) =
        List.map (fun i => ((List.range' mi (ma + 1 - mi)).filter
          (fun L => decide (i + L ≤ texts.length))).length) (List.range texts.length) := by
      refine List.map_congr_left ?_
      intro i _
      simp only [Function.comp]
      rw [filterMap_if_eq_map_filter (fun L => i + L ≤ texts.length)
        (fun L => ((i : ℤ), (i : ℤ) + (L : ℤ) - 1, joinSep SEP ((texts.drop i).take L)))]
      rw [List.length_map]
    rw [hcong, map_sum_list_range]
    simp only [filter_length_eq_sum, map_sum_list_range']
    rw [Finset.sum_comm, windowCountFormula, map_sum_list_range']
    refine Finset.sum_congr rfl ?_
    intro j _
    simpa using range_count_window texts.length (mi + j) (by omega)
  · -- soundness of every emitted window
    intro w hw
    simp only [build_windows, List.mem_flatMap, List.mem_range, List.mem_filterMap,
      List.mem_range'_1] at hw
    obtain ⟨i, hi, L, ⟨hL1, hL2⟩, hif⟩ := hw
    by_cases hc : i + L ≤ texts.length
    · rw [if_pos hc] at hif
      obtain rfl := Option.some.inj hif
      refine ⟨i, L, hL1, by omega, hc, rfl, by push_cast; ring⟩
    · rw [if_neg hc] at hif
      exact absurd hif (by simp)
  · -- completeness: every admissible (i, L) produces its window
    intro i L hL1 hL2 hfit
    simp only [build_windows, List.mem_flatMap, List.mem_range, List.mem_filterMap,
      List.mem_range'_1]
    exact ⟨i, by omega, L, ⟨hL1, by omega⟩, by rw [if_pos hfit]⟩
  · -- no two windows share (start, end)
    have hkeys : (build_windows texts mi ma).map (fun w => (w.1, w.2.1)) =
        (List.range texts.length).flatMap fun i =>
          ((List.range' mi (ma + 1 - mi)).filter
            (fun L => decide (i + L ≤ texts.length))).map
            (fun L : ℕ => ((i : ℤ), (i : ℤ) + (L : ℤ) - 1)) := by
      rw [build_windows, List.map_flatMap]
      refine congrArg _ ?_
      funext i
      rw [filterMap_if_eq_map_filter (fun L => i + L ≤ texts.length)
        (fun L => ((i : ℤ), (i : ℤ) + (L : ℤ) - 1, joinSep SEP ((texts.drop i).take L)))]
      rw [List.map_map]
      rfl
    rw [hkeys, List.nodup_flatMap]
    constructor
    · intro i _
      refine List.Nodup.map_on ?_ ((List.nodup_range' mi (ma + 1 - mi)).filter _)
      intro x _ y _ hxy
      have := congrArg Prod.snd hxy
      simp only at this
      omega
    · refine (List.pairwise_lt_range texts.length).imp ?_
      intro a b hab
      simp only [Function.onFun]
      intro key hka hkb
      obtain ⟨La, _, rfl⟩ := List.mem_map.mp hka
      obtain ⟨Lb, _, hEq⟩ := List.mem_map.mp hkb
      have := congrArg Prod.fst hEq
      simp only at this
      omega
  · intro h0
    rw [build_windows, h0]
    rfl
  · intro hlt
    have hk : ma + 1 - mi = 0 := by omega
    rw [build_windows, hk]
    simp

/-- C2 witness: the amended statement instantiated at two texts and window
lengths 2..4. -/
theorem c2_build_windows_amended_witness :
    (1 : ℕ) ≤ 2
    ∧ ((build_windows ["A", "B"] 2 4).length = windowCountFormula 2 2 4
      ∧ (∀ w ∈ build_windows ["A", "B"] 2 4, ∃ i L : ℕ, 2 ≤ L ∧ L ≤ 4 ∧
          i + L ≤ (["A", "B"] : List String).length ∧
          w = ((i : ℤ), (i : ℤ) + (L : ℤ) - 1,
            joinSep SEP (((["A", "B"] : List String).drop i).take L)) ∧
          w.2.1 - w.1 + 1 = (L : ℤ))
      ∧ (∀ i L : ℕ, 2 ≤ L → L ≤ 4 → i + L ≤ (["A", "B"] : List String).length →
          ((i : ℤ), (i : ℤ) + (L : ℤ) - 1,
            joinSep SEP (((["A", "B"] : List String).drop i).take L))
            ∈ build_windows ["A", "B"] 2 4)
      ∧ ((build_windows ["A", "B"] 2 4).map (fun w => (w.1, w.2.1))).Nodup
      ∧ ((["A", "B"] : List String).length = 0 → build_windows ["A", "B"] 2 4 = [])
      ∧ (4 < 2 → build_windows ["A", "B"] 2 4 = [])) :=
  ⟨by decide, c2_build_windows_amended ["A", "B"] 2 4 (by decide)⟩

/-- C3: on a non-empty text list with `minLen ≤ maxLen`,
`tail_windows_for_new_turn` emits exactly `maxLen − minLen + 1` windows
(zero exactly when `n < minLen`), every emitted window ends at index
`n − 1`, and for each admissible length `L` the window
`[max(0, n−L), n−1]` is emitted whenever its length `min(n, L)` is at
least `minLen`. -/
theorem c3_tail_windows :
    ∀ (texts : List String) (mi ma : ℕ), texts ≠ [] → mi ≤ ma →
      ((tail_windows_for_new_turn texts mi ma).length =
        if mi ≤ texts.length then ma + 1 - mi else 0)
      ∧ (∀ w ∈ tail_windows_for_new_turn texts mi ma,
          w.2.1 = (texts.length : ℤ) - 1)
      ∧ (∀ L : ℕ, mi ≤ L → L ≤ ma → mi ≤ min texts.length L →
          (((texts.length - L : ℕ) : ℤ), (texts.length : ℤ) - 1,
            joinSep SEP (texts.drop (texts.length - L)))
            ∈ tail_windows_for_new_turn texts mi ma) := by
  intro texts mi ma htne hle
  have hn : texts.length ≠ 0 := fun h => htne (List.length_eq_zero.mp h)
  have hunfold : tail_windows_for_new_turn texts mi ma =
      (List.range' mi (ma + 1 - mi)).filterMap fun L =>
        if mi ≤ texts.length - (texts.length - L) then
          some (((texts.length - L : ℕ) : ℤ), (texts.length : ℤ) - 1,
            joinSep SEP (texts.drop (texts.length - L)))
        else none := by
    rw [tail_windows_for_new_turn]
    simp only [hn, if_false]
  refine ⟨?_, ?_, ?_⟩
  · rw [hunfold, filterMap_if_eq_map_filter
      (fun L => mi ≤ texts.length - (texts.length - L))
      (fun L : ℕ => (((texts.length - L : ℕ) : ℤ), (texts.length : ℤ) - 1,
        joinSep SEP (texts.drop (texts.length - L)))), List.length_map]
    by_cases hcase : mi ≤ texts.length
    · rw [if_pos hcase]
      have hall : (List.range' mi (ma + 1 - mi)).filter
          (fun L => decide (mi ≤ texts.length - (texts.length - L))) =
          List.range' mi (ma + 1 - mi) := by
        rw [List.filter_eq_self]
        intro L hL
        rw [List.mem_range'_1] at hL
        simp only [decide_eq_true_eq]
        omega
      rw [hall, List.length_range']
    · rw [if_neg hcase]
      have hnone : (List.range' mi (ma + 1 - mi)).filter
          (fun L => decide (mi ≤ texts.length - (texts.length - L))) = [] := by
        rw [List.filter_eq_nil_iff]
        intro L hL
        rw [List.mem_range'_1] at hL
        simp only [decide_eq_true_eq]
        omega
      rw [hnone]
      rfl
  · intro w hw
    rw [hunfold] at hw
    simp only [List.mem_filterMap, List.mem_range'_1] at hw
    obtain ⟨L, _, hif⟩ := hw
    by_cases hc : mi ≤ texts.length - (texts.length - L)
    · rw [if_pos hc] at hif
      obtain rfl := Option.some.inj hif
      rfl
    · rw [if_neg hc] at hif
      exact absurd hif (by simp)
  · intro L hL1 hL2 hlen
    rw [hunfold]
    simp only [List.mem_filterMap, List.mem_range'_1]
    refine ⟨L, ⟨hL1, by omega⟩, ?_⟩
    rw [if_pos (by omega)]

/-- C3 witness: two texts, lengths 2..4 — three windows, all ending at
index 1. -/
theorem c3_tail_windows_witness :
    (["A", "B"] : List String) ≠ []
    ∧ (2 : ℕ) ≤ 4
    ∧ ((tail_windows_for_new_turn ["A", "B"] 2 4).length =
        if 2 ≤ (["A", "B"] : List String).length then 4 + 1 - 2 else 0)
    ∧ (∀ w ∈ tail_windows_for_new_turn ["A", "B"] 2 4,
        w.2.1 = ((["A", "B"] : List String).length : ℤ) - 1) :=
  ⟨by decide, by decide, (c3_tail_windows ["A", "B"] 2 4 (by decide) (by decide)).1,
   (c3_tail_windows ["A", "B"] 2 4 (by decide) (by decide)).2.1⟩

/-- C6: `answer` evaluates the intent checks in the fixed order greeting →
acknowledgment → yes/no → fact statement → retrieval fall-through; the
first matching check alone determines the reply, and on any match the
result is a short-circuit action that reaches none of the providers. -/
theorem c6_answer_priority :
    ∀ q mode : String,
      (is_greeting (pyStrip q) = true → answer q mode = .greetingReply)
      ∧ (is_greeting (pyStrip q) = false → is_acknowledgment (pyStrip q) = true →
          answer q mode = .ackReply)
      ∧ (is_greeting (pyStrip q) = false → is_acknowledgment (pyStrip q) = false →
          is_yesno (pyStrip q) = some "yes" → answer q mode = .yesReply)
      ∧ (is_greeting (pyStrip q) = false → is_acknowledgment (pyStrip q) = false →
          is_yesno (pyStrip q) = some "no" → answer q mode = .noReply)
      ∧ (is_greeting (pyStrip q) = false → is_acknowledgment (pyStrip q) = false →
          is_yesno (pyStrip q) = none → is_fact_statement (pyStrip q) = true →
          answer q mode = .factReply (confirm_fact (pyStrip q)))
      ∧ (is_greeting (pyStrip q) = false → is_acknowledgment (pyStrip q) = false →
          is_yesno (pyStrip q) = none → is_fact_statement (pyStrip q) = false →
          answer q mode = .ragReply mode)
      ∧ ((is_greeting (pyStrip q) = true ∨ is_acknowledgment (pyStrip q) = true ∨
          is_yesno (pyStrip q) = some "yes" ∨ is_yesno (pyStrip q) = some "no" ∨
          is_fact_statement (pyStrip q) = true) →
          callsProviders (answer q mode) = false) := by
  intro q mode
  simp only [answer]
  split_ifs with h1 h2 h3 h4 h5 <;>
    refine ⟨?_, ?_, ?_, ?_, ?_, ?_, ?_⟩ <;> simp_all [callsProviders]

/-- C6 witness: a bare greeting short-circuits to the greeting reply. -/
theorem c6_answer_priority_witness :
    is_greeting (pyStrip "hi") = true
    ∧ answer "hi" "hybrid" = AnswerAction.greetingReply :=
  ⟨by decide, (c6_answer_priority "hi" "hybrid").1 (by decide)⟩

/-- C8: window insertion keyed by (user, conversation, start_index,
end_index) is idempotent (re-inserting an identical window, or any window
with a present key, is a no-op), leaves exactly one row for a freshly
inserted key, preserves at-most-one-row-per-key, and is order-independent
(up to row order) for distinct keys. -/
theorem c8_insert_window_row_idempotent :
    ∀ (s : List WindowRow) (r r1 r2 : WindowRow) (k : String × String × ℤ × ℤ),
      insert_window_row (insert_window_row s r) r = insert_window_row s r
      ∧ (s.any (fun x => decide (rowKey x = rowKey r)) = true →
          insert_window_row s r = s)
      ∧ (countKey s (rowKey r) = 0 →
          countKey (insert_window_row (insert_window_row s r) r) (rowKey r) = 1)
      ∧ (countKey s k ≤ 1 → countKey (insert_window_row s r) k ≤ 1)
      ∧ (rowKey r1 ≠ rowKey r2 →
          (insert_window_row (insert_window_row s r1) r2).Perm
            (insert_window_row (insert_window_row s r2) r1)) := by
  intro s r r1 r2 k
  have hmem : ∀ (t : List WindowRow) (x : WindowRow),
      t.any (fun y => decide (rowKey y = rowKey x)) = true ↔
      ∃ y ∈ t, rowKey y = rowKey x := by
    intro t x
    simp [List.any_eq_true]
  have hcount : ∀ (t : List WindowRow) (x : WindowRow),
      countKey t (rowKey x) = 0 ↔
      t.any (fun y => decide (rowKey y = rowKey x)) = false := by
    intro t x
    simp [countKey, List.length_eq_zero, List.filter_eq_nil_iff, List.any_eq_true]
  refine ⟨?_, ?_, ?_, ?_, ?_⟩
  · by_cases h : s.any (fun x => decide (rowKey x = rowKey r)) = true
    · simp [insert_window_row, h]
    · have h' := eq_false_of_ne_true h
      have : (s ++ [r]).any (fun x => decide (rowKey x = rowKey r)) = true := by
        refine (hmem _ _).mpr ⟨r, ?_, rfl⟩
        simp
      simp [insert_window_row, h', this]
  · intro h; simp [insert_window_row, h]
  · intro h
    have h' := (hcount s r).mp h
    have hins : insert_window_row s r = s ++ [r] := by
      simp [insert_window_row, h']
    have hsecond : insert_window_row (insert_window_row s r) r =
        insert_window_row s r := by
      by_cases hh : s.any (fun x => decide (rowKey x = rowKey r)) = true
      · simp [insert_window_row, hh]
      · have hh' := eq_false_of_ne_true hh
        have : (s ++ [r]).any (fun x => decide (rowKey x = rowKey r)) = true := by
          refine (hmem _ _).mpr ⟨r, ?_, rfl⟩
          simp
        simp [insert_window_row, hh', this]
    rw [hsecond, hins]
    have happ : countKey (s ++ [r]) (rowKey r) =
        countKey s (rowKey r) + countKey [r] (rowKey r) := by
      simp [countKey, List.filter_append]
    have hone : countKey [r] (rowKey r) = 1 := by simp [countKey]
    rw [happ, h, hone]
  · intro h
    by_cases hh : s.any (fun x => decide (rowKey x = rowKey r)) = true
    · simpa [insert_window_row, hh] using h
    · have hh' := eq_false_of_ne_true hh
      have hins : insert_window_row s r = s ++ [r] := by
        simp [insert_window_row, hh']
      have happ : countKey (s ++ [r]) k = countKey s k + countKey [r] k := by
        simp [countKey, List.filter_append]
      by_cases hk : rowKey r = k
      · have hzero : countKey s k = 0 := by
          rw [← hk]; exact (hcount s r).mpr hh'
        have hone : countKey [r] k = 1 := by simp [countKey, hk]
        rw [hins, happ, hzero, hone]
      · have hzilch : countKey [r] k = 0 := by simp [countKey, hk]
        rw [hins, happ, hzilch]
        omega
  · intro hne
    by_cases h1p : s.any (fun x => decide (rowKey x = rowKey r1)) = true
    · by_cases h2p : s.any (fun x => decide (rowKey x = rowKey r2)) = true
      · simp [insert_window_row, h1p, h2p]
      · have h2p' := eq_false_of_ne_true h2p
        have h1pp : (s ++ [r2]).any (fun x => decide (rowKey x = rowKey r1)) = true := by
          rcases (hmem s r1).mp h1p with ⟨y, hy, hk2⟩
          exact (hmem _ _).mpr ⟨y, by simp [hy], hk2⟩
        simp [insert_window_row, h1p, h2p', h1pp]
    · have h1p' := eq_false_of_ne_true h1p
      by_cases h2p : s.any (fun x => decide (rowKey x = rowKey r2)) = true
      · have h2pp : (s ++ [r1]).any (fun x => decide (rowKey x = rowKey r2)) = true := by
          rcases (hmem s r2).mp h2p with ⟨y, hy, hk2⟩
          exact (hmem _ _).mpr ⟨y, by simp [hy], hk2⟩
        simp [insert_window_row, h1p', h2p, h2pp]
      · have h2p' := eq_false_of_ne_true h2p
        have h2pp : (s ++ [r1]).any (fun x => decide (rowKey x = rowKey r2)) = false := by
          simp only [List.any_append, Bool.or_eq_false_iff]
          refine ⟨h2p', ?_⟩
          simp [hne]
        have h1pp : (s ++ [r2]).any (fun x => decide (rowKey x = rowKey r1)) = false := by
          simp only [List.any_append, Bool.or_eq_false_iff]
          refine ⟨h1p', ?_⟩
          simp [Ne.symm hne]
        have hi1 : insert_window_row s r1 = s ++ [r1] := by
          simp only [insert_window_row, h1p', Bool.false_eq_true, if_false]
        have hi2 : insert_window_row s r2 = s ++ [r2] := by
          simp only [insert_window_row, h2p', Bool.false_eq_true, if_false]
        have hi12 : insert_window_row (s ++ [r1]) r2 = s ++ [r1] ++ [r2] := by
          simp only [insert_window_row, h2pp, Bool.false_eq_true, if_false]
        have hi21 : insert_window_row (s ++ [r2]) r1 = s ++ [r2] ++ [r1] := by
          simp only [insert_window_row, h1pp, Bool.false_eq_true, if_false]
        rw [hi1, hi2, hi12, hi21]
        have hswap : ([r1, r2] : List WindowRow).Perm [r2, r1] :=
          List.Perm.swap r2 r1 []
        simpa [List.append_assoc] using List.Perm.append_left s hswap

/-- C8 witness: inserting the same concrete row twice into an empty store
leaves exactly one row with its key, and two distinct-key inserts commute
up to row order. -/
theorem c8_insert_window_row_idempotent_witness :
    countKey [] (rowKey wrowA) = 0
    ∧ countKey (insert_window_row (insert_window_row [] wrowA) wrowA) (rowKey wrowA) = 1
    ∧ rowKey wrowA ≠ rowKey wrowB
    ∧ (insert_window_row (insert_window_row [] wrowA) wrowB).Perm
        (insert_window_row (insert_window_row [] wrowB) wrowA) :=
  ⟨by decide, (c8_insert_window_row_idempotent [] wrowA wrowA wrowB (rowKey wrowA)).2.2.1
      (by decide),
    by decide, (c8_insert_window_row_idempotent [] wrowA wrowA wrowB (rowKey wrowA)).2.2.2.2
      (by decide)⟩

end RagSpec
